import Mathlib

/-!
Shallow embedding of parts of the spaces-design panel UI sources:

* the Fluxxor bounds store (`BoundsStore` in the stores file): its state,
  its `DOCUMENT_UPDATED` / `RESET_DOCUMENTS` handler
  `_resetDocumentLayerBounds`, and its getters;
* the menu-bar model (`src/js/models/menubar.js`): `_processMenuActions`
  and the action-map parts of `fromJSONObjects` and `updateOpenDocuments`;
* the one-shot layer commands (`src/js/actions/layers.js`): `renameLayer`,
  `deselectAll`, `selectAll`, `deleteSelected`, `groupSelected`,
  `setLocking` and their helpers, with host calls and store dispatches
  recorded as explicit effect lists;
* the `Carousel` component's navigation handlers (`_nextItem`, `_prevItem`,
  `_gotoItem`);
* the responsive `html { font-size }` media-query cascade from the main
  LESS style sheet.

JavaScript objects used as dictionaries, and `Immutable.Map`/`Map` with
`set`/`get`, are modelled as association lists where `set` conses a new
entry in front and `get` returns the first (that is, most recent) entry
for a key, which matches JavaScript's last-write-wins lookup semantics.
Machine numbers that hold IDs and indices are modelled as `Int` / `Nat`;
none of the modelled code performs arithmetic that can overflow a double.
-/

/-! ## JavaScript-style maps as association lists -/

/-- Insert a binding, JS `Map.prototype.set` / property assignment style:
the new entry shadows any previous entry for the same key. -/
def mapSet {α β : Type} (m : List (α × β)) (k : α) (v : β) : List (α × β) :=
  (k, v) :: m

/-- Lookup, JS `Map.prototype.get` / property read style: the most recent
binding for the key wins; `none` models JS `undefined`. -/
def mapGet {α β : Type} [DecidableEq α] : List (α × β) → α → Option β
  | [], _ => none
  | (k, v) :: rest, key => if k = key then some v else mapGet rest key

/-! ## The bounds store

Model of the `BoundsStore` Fluxxor store.  A raw document-update payload
carries a list of `{document: {documentID, ...}, layers: [...]}` objects;
each layer object carries a `layerID` and the rest of its host descriptor.
`models/bounds.js` is not among the sources, so `Bounds` is modelled as an
opaque value remembering the layer object it was constructed from, which
is all `new Bounds(layerObj)` is given. -/

/-- A JSON-ish value: either a string leaf or an object with ordered
properties.  Used for host descriptors and for the raw menu-actions
objects fed to the menu bar.  An object is encoded as its ordered
property chain: `.nil` is `{}` and `.cons k v rest` is the object whose
first property is `k : v` followed by the properties of `rest`. -/
inductive RawVal where
  | str : String → RawVal
  | nil : RawVal
  | cons : String → RawVal → RawVal → RawVal
deriving DecidableEq, Repr

/-- Property read on a JS object (`descriptor[key]`): first matching key;
a string has no own properties of interest. -/
def RawVal.getProp : RawVal → String → Option RawVal
  | .cons k v rest, key => if k = key then some v else rest.getProp key
  | _, _ => none

/-- JS `descriptor.hasOwnProperty(key)`. -/
def RawVal.hasProp (v : RawVal) (key : String) : Bool :=
  (v.getProp key).isSome

/-- A layer object inside a document-update payload: its `layerID` plus
the remainder of the host layer descriptor. -/
structure LayerObj where
  layerID : Int
  descriptor : RawVal
deriving DecidableEq, Repr

/-- The `document` member of a payload entry: its `documentID` plus the
remainder of the raw host document descriptor (which the handler ignores). -/
structure RawDocument where
  documentID : Int
  descriptor : RawVal
deriving DecidableEq, Repr

/-- One entry of `payload.documents`. -/
structure DocObj where
  document : RawDocument
  layers : List LayerObj
deriving DecidableEq, Repr

/-- A `DOCUMENT_UPDATED` / `RESET_DOCUMENTS` payload. -/
structure BoundsPayload where
  documents : List DocObj
deriving DecidableEq, Repr

/-- Opaque model of `new Bounds(layerObj)` (`models/bounds.js` is not in
the sources): the bounds value constructed from a layer object. -/
structure Bounds where
  ofLayer : LayerObj
deriving DecidableEq, Repr

/-- The store's state: `this._layerBounds` (documentID → layerID → Bounds)
and `this._documentBounds` (documentID → Bounds). -/
structure BoundsStoreState where
  layerBounds : List (Int × List (Int × Bounds))
  documentBounds : List (Int × Bounds)
deriving DecidableEq, Repr

/-- `initialize`: both maps start empty. -/
def initialBoundsStore : BoundsStoreState := ⟨[], []⟩

/-- `getDocumentBounds(documentID)`: `this._documentBounds[documentID]`. -/
def getDocumentBounds (s : BoundsStoreState) (documentID : Int) : Option Bounds :=
  mapGet s.documentBounds documentID

/-- `getLayerBounds(documentID, layerID)`:
`this._layerBounds[documentID][layerID]`.  When no inner map exists for
`documentID` the JS code dereferences `undefined` and throws a
`TypeError`; that failure is the `Except.error` branch. -/
def getLayerBounds (s : BoundsStoreState) (documentID layerID : Int) :
    Except String (Option Bounds) :=
  match mapGet s.layerBounds documentID with
  | none => .error "TypeError: undefined has no properties"
  | some m => .ok (mapGet m layerID)

/-- The inner `layerArray.reduce` of `_resetDocumentLayerBounds`: build a
fresh map from layer ID to `new Bounds(layerObj)`, starting from `{}`. -/
def buildLayerBoundsMap (layers : List LayerObj) : List (Int × Bounds) :=
  layers.foldl (fun boundsMap layerObj =>
    mapSet boundsMap layerObj.layerID ⟨layerObj⟩) []

/-- `_resetDocumentLayerBounds(payload)`: for each payload document,
replace `this._layerBounds[documentID]` with the freshly built map; then
`this.emit("change")` exactly once.  The second component counts the
`"change"` emissions of this call.  `this._documentBounds` is not touched. -/
def resetDocumentLayerBounds (payload : BoundsPayload) (s : BoundsStoreState) :
    BoundsStoreState × Nat :=
  (⟨payload.documents.foldl (fun lb docObj =>
      mapSet lb docObj.document.documentID (buildLayerBoundsMap docObj.layers))
      s.layerBounds,
    s.documentBounds⟩, 1)

/-- Process a sequence of `DOCUMENT_UPDATED` / `RESET_DOCUMENTS` payloads
(both events are bound to `_resetDocumentLayerBounds`) starting from the
freshly initialized store. -/
def processBoundsEvents (payloads : List BoundsPayload) : BoundsStoreState :=
  payloads.foldl (fun s p => (resetDocumentLayerBounds p s).1) initialBoundsStore

/-- The document IDs appearing across a sequence of payloads. -/
def processedDocumentIDs (payloads : List BoundsPayload) : List Int :=
  payloads.flatMap (fun p => p.documents.map (fun d => d.document.documentID))

/-! ## Carousel navigation

Model of the state-index arithmetic of the `Carousel` component's
`_gotoItem` / `_nextItem` / `_prevItem` handlers.  `index` is the current
`this.state.index`, `n` is `this.props.items.length`, `wrap` is
`this.props.wrapNavigation`.  JS `%` on the nonnegative operands that
occur here agrees with `Int.emod`. -/

/-- The index selected by `_nextItem`. -/
def nextItemIndex (wrap : Bool) (index n : Int) : Int :=
  if wrap then (index + 1) % n else min (index + 1) (n - 1)

/-- The index selected by `_prevItem`. -/
def prevItemIndex (wrap : Bool) (index n : Int) : Int :=
  let p := index - 1
  if wrap ∧ p < 0 then n + p else max p 0

/-- The index set by `_gotoItem(index)`. -/
def gotoItemIndex (index : Int) : Int := index

/-- The index of `getInitialState`. -/
def initialCarouselIndex : Int := 0

/-! ## Responsive font-size media queries

The `html { font-size }` cascade of the main LESS sheet.  A rule
`(minRatio, minWidth, maxWidth?, size)` matches a device with pixel
ratio `r` and device width `w` (CSS pixels) when `minRatio ≤ r`,
`minWidth ≤ w` and, if a max is declared, `w ≤ maxWidth`.  Sizes are the
declared root font-size percentages, in tenths of a percent
(`@base-8 = 50% ↦ 500`, `@base-9 = 56.3% ↦ 563`, `@base-10 = 62.5% ↦ 625`,
`@base-11 = 68.8% ↦ 688`).  Rules are listed in source order; as in CSS,
a later matching rule overrides an earlier one.  The initial
`html { font-size: @base-10 }` declaration is the fold's start value. -/

structure MediaRule where
  minRatio : Nat
  minWidth : Nat
  maxWidth : Option Nat
  size : Nat
deriving DecidableEq, Repr

/-- The nine `@media` rules of the sheet, in source order. -/
def mediaRules : List MediaRule :=
  [⟨1, 801, some 1280, 500⟩,
   ⟨1, 1281, some 1440, 500⟩,
   ⟨1, 1441, some 1680, 625⟩,
   ⟨1, 1681, none, 625⟩,
   ⟨2, 801, some 1280, 500⟩,
   ⟨2, 1281, some 1440, 500⟩,
   ⟨2, 1441, some 1680, 563⟩,
   ⟨2, 1681, some 2560, 625⟩,
   ⟨2, 2561, none, 688⟩]

/-- Whether a rule's media query matches the device. -/
def ruleMatches (rule : MediaRule) (ratio width : Nat) : Bool :=
  decide (rule.minRatio ≤ ratio) && decide (rule.minWidth ≤ width) &&
    (match rule.maxWidth with
     | none => true
     | some mw => decide (width ≤ mw))

/-- The root font-size percentage (in tenths) the cascade selects for a
device with the given pixel ratio and device width. -/
def htmlFontSize (ratio width : Nat) : Nat :=
  mediaRules.foldl
    (fun acc rule => if ruleMatches rule ratio width then rule.size else acc) 625

/-! ## Documents and layers as the layer actions see them

`js/models/layer.js` and `js/models/document.js` are not among the
sources; the records below carry exactly the fields the modelled code
reads: `layer.id`, `layer.isBackground`, `document.id`, `document.name`,
and the `document.layers` collections `all`, `selected`, `allSelected`
plus the `selectedLayersDeletable` flag. -/

structure Layer where
  id : Int
  isBackground : Bool
deriving DecidableEq, Repr

/-- The parts of a document's `layers` tree that the modelled commands
consult. -/
structure LayerTree where
  all : List Layer
  selected : List Layer
  allSelected : List Layer
  selectedLayersDeletable : Bool
deriving DecidableEq, Repr

structure Document where
  id : Int
  name : String
  layers : LayerTree
deriving DecidableEq, Repr

/-! ## The menu bar: action and enabler maps

Model of `_processMenuActions` and of the map-building parts of
`MenuBar.fromJSONObjects` and `MenuBar.prototype.updateOpenDocuments`.
`MenuItem.fromDescriptor` (`models/menuitem.js`) is not among the
sources, so the `roots` / `rootMap` side of the record is omitted; the
claims treated here concern the `actions` and `enablers` maps and the
open-document items, all of which are built by code in `menubar.js`
itself. -/

/-- The `$payload` of a menu action: a raw JSON value (static menu files)
or a `Document` (`updateOpenDocuments`). -/
inductive ActionPayload where
  | raw : RawVal → ActionPayload
  | document : Document → ActionPayload
deriving DecidableEq, Repr

/-- An entry of the menu bar's `actions` map: the `$action` value and the
optional `$payload`. -/
structure MenuAction where
  action : RawVal
  payload : Option ActionPayload
deriving DecidableEq, Repr

/-- Accumulating splitter behind `splitComma`; `acc` holds the current
segment's characters in reverse. -/
def splitCommaAux : List Char → List Char → List String
  | [], acc => [String.mk acc.reverse]
  | c :: cs, acc =>
    if c = ',' then String.mk acc.reverse :: splitCommaAux cs []
    else splitCommaAux cs (c :: acc)

/-- JS `String.prototype.split(",")`: split on every comma; an empty
string yields `[""]`, adjacent commas yield empty segments. -/
def splitComma (s : String) : List String :=
  splitCommaAux s.data []

/-- The `ruleArray` computed for a descriptor: the comma-split of its
`"$enable-rule"` string, or `[]` when the property is absent.  (The menu
JSON only ever puts strings under `"$enable-rule"`; on any other value
the JS `split` call would throw, a shape that does not occur and is
totalized to `[]` here.) -/
def ruleListOf (descriptor : RawVal) : List String :=
  match descriptor.getProp "$enable-rule" with
  | some (.str rules) => splitComma rules
  | some _ => []
  | none => []

/-- `_processMenuActions(rawActions, actionMap, enablerMap, prefix)`:
walk the property chain of `rawActions`; each property `prop` with value
`descriptor` gets the dot-joined id, an enabler entry, and either an
action entry (when `descriptor` has `"$action"`) or a recursive walk
(when it does not and `prop` is not `"$enable-rule"` itself).  A string
in node position has no own properties to iterate, so the walk ends
there. -/
def processMenuActions :
    RawVal → List (String × MenuAction) → List (String × List String) →
      Option String → List (String × MenuAction) × List (String × List String)
  | .cons prop descriptor rest, actionMap, enablerMap, pfx =>
    let id := match pfx with
      | none => prop
      | some p => p ++ "." ++ prop
    let enablerMap1 := mapSet enablerMap id (ruleListOf descriptor)
    let maps2 :=
      match descriptor.getProp "$action" with
      | some act =>
        (mapSet actionMap id
          ⟨act, (descriptor.getProp "$payload").map ActionPayload.raw⟩, enablerMap1)
      | none =>
        if prop = "$enable-rule" then (actionMap, enablerMap1)
        else processMenuActions descriptor actionMap enablerMap1 (some id)
    processMenuActions rest maps2.1 maps2.2 pfx
  | _, actionMap, enablerMap, _ => (actionMap, enablerMap)

/-- Specification-side collector for the actions map, following the
claim's wording: every node whose descriptor has a `"$action"` property
contributes, under its dot-joined id, an entry carrying that `$action`
(and the `$payload` when present); nodes without `"$action"` are walked
into, except the `"$enable-rule"` property itself. -/
def collectMenuActionEntries : Option String → RawVal → List (String × MenuAction)
  | pfx, .cons prop descriptor rest =>
    let id := match pfx with
      | none => prop
      | some p => p ++ "." ++ prop
    (match descriptor.getProp "$action" with
     | some act => [(id, ⟨act, (descriptor.getProp "$payload").map ActionPayload.raw⟩)]
     | none =>
       if prop = "$enable-rule" then []
       else collectMenuActionEntries (some id) descriptor)
      ++ collectMenuActionEntries pfx rest
  | _, _ => []

/-- Specification-side collector for the enablers map: every visited node
contributes, under its dot-joined id, the comma-split list of its
`"$enable-rule"` string (empty when absent). -/
def collectMenuEnablerEntries : Option String → RawVal → List (String × List String)
  | pfx, .cons prop descriptor rest =>
    let id := match pfx with
      | none => prop
      | some p => p ++ "." ++ prop
    (id, ruleListOf descriptor) ::
      ((match descriptor.getProp "$action" with
        | some _ => []
        | none =>
          if prop = "$enable-rule" then []
          else collectMenuEnablerEntries (some id) descriptor)
        ++ collectMenuEnablerEntries pfx rest)
  | _, _ => []

/-- The maps side of the `MenuBar` record. -/
structure MenuBarMaps where
  id : String
  actions : List (String × MenuAction)
  enablers : List (String × List String)
deriving DecidableEq, Repr

/-- The map-building part of `MenuBar.fromJSONObjects`: parse the raw
menu-actions object with `_processMenuActions` starting from empty maps
and an undefined prefix.  (`menuObj` only contributes the id and the
`roots`, which are omitted here.) -/
def fromJSONObjectsMaps (menuID : String) (menuActionsObj : RawVal) : MenuBarMaps :=
  let maps := processMenuActions menuActionsObj [] [] none
  ⟨menuID, maps.1, maps.2⟩

/-- Modelled from the spec: `js/util/key.modifiersToBits` is not among
the sources; the host modifier bitfield is modelled as the record of the
flags passed in. -/
structure ModifierBits where
  command : Bool
  option : Bool
deriving DecidableEq, Repr

def modifiersToBits (command opt : Bool) : ModifierBits := ⟨command, opt⟩

/-- `_switchDocModifiersMac`: command+option. -/
def switchDocModifiersMac : ModifierBits := modifiersToBits true true

/-- `_switchDocModifiersWin`: command+option. -/
def switchDocModifiersWin : ModifierBits := modifiersToBits true true

/-- A keyboard shortcut of an open-document menu item. -/
structure DocShortcut where
  keyChar : String
  modifiers : ModifierBits
deriving DecidableEq, Repr

/-- The item descriptor `updateOpenDocuments` builds per open document. -/
structure OpenDocMenuItem where
  id : String
  itemID : String
  label : String
  command : String
  checked : Nat
  shortcut : Option DocShortcut
deriving DecidableEq, Repr

/-- The menu id `"WINDOW.OPEN_DOCUMENT." + index`. -/
def openDocumentMenuID (index : Nat) : String :=
  "WINDOW.OPEN_DOCUMENT." ++ Nat.repr index

/-- The item descriptor for one open document, as built inside the
`_.values(documents).map` callback of `updateOpenDocuments`.  `checked`
is `Immutable.is(document, currentDocument) ? 1 : 0`, and only indices
below nine get a `(index + 1)` shortcut with command+option modifiers. -/
def openDocumentItem (index : Nat) (document currentDocument : Document)
    (isMac : Bool) : OpenDocMenuItem :=
  { id := openDocumentMenuID index
    itemID := Nat.repr index
    label := document.name
    command := openDocumentMenuID index
    checked := if document = currentDocument then 1 else 0
    shortcut :=
      if index < 9 then
        some ⟨Nat.repr (index + 1),
          if isMac then switchDocModifiersMac else switchDocModifiersWin⟩
      else none }

/-- The action `updateOpenDocuments` registers per open document. -/
def selectDocumentAction (document : Document) : MenuAction :=
  ⟨.str "documents.selectDocument", some (.document document)⟩

/-- The `map` over `_.values(documents)` of `updateOpenDocuments`,
threading the `newActions` map: per document (in enumeration order) build
the item descriptor and set its action entry. -/
def buildOpenDocumentItems (docs : List Document) (currentDocument : Document)
    (isMac : Bool) (index : Nat) (actions : List (String × MenuAction)) :
    List OpenDocMenuItem × List (String × MenuAction) :=
  match docs with
  | [] => ([], actions)
  | d :: rest =>
    let item := openDocumentItem index d currentDocument isMac
    let actions1 := mapSet actions (openDocumentMenuID index) (selectDocumentAction d)
    let result := buildOpenDocumentItems rest currentDocument isMac (index + 1) actions1
    (item :: result.1, result.2)

/-- The items-and-actions part of `MenuBar.prototype.updateOpenDocuments`
(the splice of the items into the `WINDOW` submenu and the `roots` update
concern the omitted `MenuItem` side). -/
def updateOpenDocumentsMaps (menubar : MenuBarMaps) (docs : List Document)
    (currentDocument : Document) (isMac : Bool) :
    List OpenDocMenuItem × MenuBarMaps :=
  let result := buildOpenDocumentItems docs currentDocument isMac 0 menubar.actions
  (result.1, { menubar with actions := result.2 })

/-! ## Layer action commands

Model of the one-shot command functions of `src/js/actions/layers.js`.
Each command is modelled as a pure function returning the effects it
issues: the store dispatches, the host `descriptor.playObject` calls, and
the transfers to actions of other modules.  The adapter's descriptor
builders (`adapter/lib/layer.js`, `adapter/lib/document.js`) are external
to the repository and, per the spec, opaque; they are modelled as free
constructors recording their arguments. -/

/-- `referenceBy` values from the adapter's document/layer libraries. -/
inductive Ref where
  | documentById : Int → Ref
  | layerById : Int → Ref
  | layerByIndex : Int → Ref
  | currentLayer : Ref
deriving DecidableEq, Repr

/-- Opaque play-object descriptors built by the adapter's layer library. -/
inductive PlayObject where
  | select : List Ref → Bool → Option String → PlayObject
  | rename : List Ref → String → PlayObject
  | deselectAll : PlayObject
  | delete : Ref → PlayObject
  | groupSelected : PlayObject
  | showLayer : List Ref → PlayObject
  | hideLayer : List Ref → PlayObject
  | unlockBackground : Int → PlayObject
  | setLocking : List Ref → Bool → PlayObject
deriving DecidableEq, Repr

/-- The store dispatches the modelled commands emit, named after the
`events.document` constants, with their exact payload fields. -/
inductive DispatchEvent where
  | selectLayersById : (documentID : Int) → (selectedIDs : List Int) → DispatchEvent
  | selectLayersByIndex : (documentID : Int) → (selectedIndices : List Int) → DispatchEvent
  | renameLayer : (documentID : Int) → (layerID : Int) → (name : String) → DispatchEvent
  | deleteSelected : (documentID : Int) → (layerIDs : List Int) → DispatchEvent
  | groupSelected : (documentID : Int) → (groupID : Int) → (groupEndID : Int) →
      (groupname : String) → DispatchEvent
  | lockChanged : (documentID : Int) → (layerID : Int) → (locked : Bool) → DispatchEvent
  | visibilityChanged : (documentID : Int) → (layerID : Int) → (visible : Bool) → DispatchEvent
deriving DecidableEq, Repr

/-- Transfers to actions defined in modules outside this file's scope. -/
inductive Transfer where
  | updateDocument : Int → Transfer
deriving DecidableEq, Repr

/-- The observable effects of one command invocation. -/
structure Effects where
  dispatches : List DispatchEvent
  plays : List PlayObject
  transfers : List Transfer
deriving DecidableEq, Repr

/-- `Promise.resolve()` with no side effects. -/
def Effects.resolved : Effects := ⟨[], [], []⟩

/-- `collection.pluck(layers, "id")`. -/
def pluckIds (layers : List Layer) : List Int := layers.map (fun l => l.id)

/-- Modelled from the spec: `js/util/locking.playWithLockOverride` is not
among the sources; per the spec's description of commands marshaling
parameters into host calls, it is modelled as issuing the given play
object(s) to the host (its temporary-unlock bookkeeping adds further
host calls, none of which the claims depend on). -/
def playWithLockOverride (playObjects : List PlayObject) : List PlayObject :=
  playObjects

/-- `selectLayerCommand(document, layerSpec, modifier)`.  The
single-`Layer` overload is the `Immutable.List.of` wrap; `layerSpec` is
the wrapped list here.  `hostTargetIndices` models the host's
`targetLayers` reply consumed by the non-`"select"` modifier branch. -/
def selectLayerCommand (document : Document) (layerSpec : List Layer)
    (modifier : Option String) (hostTargetIndices : List Int) : Effects :=
  let optimistic :=
    if modifier = none ∨ modifier = some "select" then
      [DispatchEvent.selectLayersById document.id (pluckIds layerSpec)]
    else []
  let layerRef :=
    Ref.documentById document.id :: layerSpec.map (fun l => Ref.layerById l.id)
  let afterPlay :=
    match modifier with
    | none => []
    | some m =>
      if m = "select" then []
      else [DispatchEvent.selectLayersByIndex document.id hostTargetIndices]
  { dispatches := optimistic ++ afterPlay
    plays := [PlayObject.select layerRef false modifier]
    transfers := [] }

/-- `renameLayerCommand(document, layer, newName)`. -/
def renameLayerCommand (document : Document) (layer : Layer) (newName : String) :
    Effects :=
  { dispatches := [DispatchEvent.renameLayer document.id layer.id newName]
    plays := [PlayObject.rename
      [Ref.documentById document.id, Ref.layerById layer.id] newName]
    transfers := [] }

/-- The `document === undefined` defaulting shared by several commands:
fall back to `this.flux.store("application").getCurrentDocument()`. -/
def resolvedDocument (document? currentDocument : Option Document) : Option Document :=
  match document? with
  | some d => some d
  | none => currentDocument

/-- `deselectAllLayersCommand(document)`. -/
def deselectAllLayersCommand (document? currentDocument : Option Document) : Effects :=
  match resolvedDocument document? currentDocument with
  | none => Effects.resolved
  | some document =>
    if document.layers.all.isEmpty then Effects.resolved
    else
      { dispatches := [DispatchEvent.selectLayersById document.id []]
        plays := [PlayObject.deselectAll]
        transfers := [] }

/-- `selectAllLayersCommand(document)`: after the guard, a transfer to
`selectLayer` with the document's full layer list and no modifier; the
transfer target lives in this same file, so it is inlined. -/
def selectAllLayersCommand (document? currentDocument : Option Document) : Effects :=
  match resolvedDocument document? currentDocument with
  | none => Effects.resolved
  | some document =>
    if document.layers.all.isEmpty then Effects.resolved
    else selectLayerCommand document document.layers.all none []

/-- `deleteSelectedLayersCommand(document)`. -/
def deleteSelectedLayersCommand (document? currentDocument : Option Document) : Effects :=
  match resolvedDocument document? currentDocument with
  | none => Effects.resolved
  | some document =>
    if document.layers.all.isEmpty ∨ document.layers.selectedLayersDeletable = false then
      Effects.resolved
    else
      { dispatches := [DispatchEvent.deleteSelected document.id
          (pluckIds document.layers.allSelected)]
        plays := playWithLockOverride [PlayObject.delete Ref.currentLayer]
        transfers := [] }

/-- The host's reply to a `groupSelected` play. -/
structure GroupResult where
  layerSectionStart : Int
  layerSectionEnd : Int
  name : String
deriving DecidableEq, Repr

/-- `groupSelectedLayersCommand(document)`; `groupResult` models the
host's reply consumed by the post-play dispatch. -/
def groupSelectedLayersCommand (document : Document) (groupResult : GroupResult) :
    Effects :=
  if document.layers.selected.length = 0 then Effects.resolved
  else
    { dispatches := [DispatchEvent.groupSelected document.id
        groupResult.layerSectionStart groupResult.layerSectionEnd groupResult.name]
      plays := [PlayObject.groupSelected]
      transfers := [] }

/-- `_unlockBackgroundLayer(document, layer)`: play the unlock-background
descriptor, then transfer to `documents.updateDocument` for the whole
document. -/
def unlockBackgroundLayer (document : Document) (layer : Layer) : Effects :=
  { dispatches := []
    plays := [PlayObject.unlockBackground layer.id]
    transfers := [Transfer.updateDocument document.id] }

/-- `setLockingCommand(document, layer, locked)`. -/
def setLockingCommand (document : Document) (layer : Layer) (locked : Bool) : Effects :=
  let branch :=
    if layer.isBackground then unlockBackgroundLayer document layer
    else
      { dispatches := []
        plays := [PlayObject.setLocking
          [Ref.documentById document.id, Ref.layerById layer.id] locked]
        transfers := [] }
  { dispatches := DispatchEvent.lockChanged document.id layer.id locked :: branch.dispatches
    plays := branch.plays
    transfers := branch.transfers }

/-! ## Decimal digit strings

`Nat.repr` (JS `Number.prototype.toString` for the nonnegative integers
appearing as menu indices) is fuel-driven in core; `decDigits` is the
same decimal expansion as a direct recursion, used to reason about the
menu IDs built from indices. -/

/-- The decimal digit characters of `n`, most significant first. -/
def decDigits (n : Nat) : List Char :=
  if n < 10 then [Nat.digitChar n]
  else decDigits (n / 10) ++ [Nat.digitChar (n % 10)]
decreasing_by
  simp_wf
  omega

/-! ## Concrete sample values

Small concrete documents, layers and payloads used to evaluate the
modelled code at specific inputs. -/

/-- A payload layer with ID 2. -/
def sampleLayerA : LayerObj := ⟨2, .nil⟩

/-- A one-document, one-layer update payload (document ID 1). -/
def samplePayloadA : BoundsPayload := ⟨[⟨⟨1, .nil⟩, [sampleLayerA]⟩]⟩

/-- A two-document payload: document 1 with layers 2 and 3, document 4
with layer 5. -/
def samplePayloadB : BoundsPayload :=
  ⟨[⟨⟨1, .nil⟩, [⟨2, .nil⟩, ⟨3, .nil⟩]⟩, ⟨⟨4, .nil⟩, [⟨5, .nil⟩]⟩]⟩

/-- A one-document payload (document ID 6, layer ID 7). -/
def samplePayloadC : BoundsPayload := ⟨[⟨⟨6, .nil⟩, [⟨7, .nil⟩]⟩]⟩

/-- A document with no layers at all (a flat document). -/
def flatDocument : Document := ⟨1, "Untitled-1", ⟨[], [], [], true⟩⟩

/-- A document with one selected, deletable, non-background layer. -/
def busyDocument : Document :=
  ⟨2, "Untitled-2", ⟨[⟨10, false⟩], [⟨10, false⟩], [⟨10, false⟩], true⟩⟩

/-- A background layer (ID 7). -/
def backgroundLayer : Layer := ⟨7, true⟩

/-- A document owning `backgroundLayer`. -/
def backgroundDocument : Document :=
  ⟨3, "Untitled-3", ⟨[⟨7, true⟩], [⟨7, true⟩], [], false⟩⟩

/-- Two open documents for exercising `updateOpenDocuments`. -/
def openDocsSample : List Document := [flatDocument, busyDocument]

/-- A small raw menu-actions object:
`{FILE: {OPEN: {$action: "documents.open", $enable-rule: "always"},
         $enable-rule: "always,have-document"},
  EDIT: {$action: "edit.cut", $payload: "x"}}`. -/
def sampleMenuActionsObj : RawVal :=
  .cons "FILE"
    (.cons "OPEN"
      (.cons "$action" (.str "documents.open")
        (.cons "$enable-rule" (.str "always") .nil))
      (.cons "$enable-rule" (.str "always,have-document") .nil))
    (.cons "EDIT"
      (.cons "$action" (.str "edit.cut")
        (.cons "$payload" (.str "x") .nil))
      .nil)

/-! # Theorems -/

/-! ## Association-map lemmas -/

theorem mapGet_set_self {α β : Type} [DecidableEq α] (m : List (α × β)) (k : α) (v : β) :
    mapGet (mapSet m k v) k = some v := by
  simp [mapSet, mapGet]

theorem mapGet_set_ne {α β : Type} [DecidableEq α] (m : List (α × β)) (k k' : α) (v : β)
    (h : k ≠ k') : mapGet (mapSet m k v) k' = mapGet m k' := by
  simp [mapSet, mapGet, h]

theorem mapGet_append {α β : Type} [DecidableEq α] (xs ys : List (α × β)) (k : α) :
    mapGet (xs ++ ys) k =
      match mapGet xs k with
      | some v => some v
      | none => mapGet ys k := by
  induction xs with
  | nil => simp [mapGet]
  | cons e rest ih =>
    obtain ⟨a, b⟩ := e
    by_cases h : a = k
    · simp [mapGet, h]
    · simp [mapGet, h, ih]

theorem mapGet_eq_none_of_not_mem {α β : Type} [DecidableEq α]
    (entries : List (α × β)) (k : α) (h : k ∉ entries.map Prod.fst) :
    mapGet entries k = none := by
  induction entries with
  | nil => rfl
  | cons e rest ih =>
    obtain ⟨a, b⟩ := e
    simp only [List.map_cons, List.mem_cons, not_or] at h
    show (if a = k then some b else mapGet rest k) = none
    rw [if_neg (fun hh => h.1 hh.symm), ih h.2]

theorem foldl_mapSet_get_not_mem {α β γ : Type} [DecidableEq α] (key : γ → α) (f : γ → β)
    (items : List γ) (acc : List (α × β)) (k : α) (h : k ∉ items.map key) :
    mapGet (items.foldl (fun m x => mapSet m (key x) (f x)) acc) k = mapGet acc k := by
  induction items generalizing acc with
  | nil => rfl
  | cons x rest ih =>
    simp only [List.map_cons, List.mem_cons, not_or] at h
    rw [List.foldl_cons, ih _ h.2, mapGet_set_ne _ _ _ _ (fun hh => h.1 hh.symm)]

theorem foldl_mapSet_get_mem {α β γ : Type} [DecidableEq α] (key : γ → α) (f : γ → β)
    (items : List γ) (acc : List (α × β)) (x : γ) (hx : x ∈ items)
    (hnd : (items.map key).Nodup) :
    mapGet (items.foldl (fun m y => mapSet m (key y) (f y)) acc) (key x) = some (f x) := by
  induction items generalizing acc with
  | nil => cases hx
  | cons y rest ih =>
    simp only [List.map_cons, List.nodup_cons] at hnd
    rw [List.foldl_cons]
    rcases List.mem_cons.mp hx with h | h
    · cases h
      rw [foldl_mapSet_get_not_mem key f rest _ _ hnd.1, mapGet_set_self]
    · exact ih _ h hnd.2

theorem mapGet_foldl_mapSet_eq_none_iff {α β γ : Type} [DecidableEq α]
    (key : γ → α) (f : γ → β) (items : List γ) (acc : List (α × β)) (k : α) :
    mapGet (items.foldl (fun m x => mapSet m (key x) (f x)) acc) k = none ↔
      k ∉ items.map key ∧ mapGet acc k = none := by
  induction items generalizing acc with
  | nil => simp
  | cons x rest ih =>
    rw [List.foldl_cons, ih]
    by_cases h : key x = k
    · cases h
      simp [mapGet_set_self]
    · simp only [List.map_cons, List.mem_cons, not_or,
        mapGet_set_ne _ _ _ _ h]
      constructor
      · rintro ⟨h1, h2⟩
        exact ⟨⟨fun hh => h hh.symm, h1⟩, h2⟩
      · rintro ⟨⟨_, h1⟩, h2⟩
        exact ⟨h1, h2⟩

theorem foldl_cons_eq_reverse_map {α β γ : Type} (f : γ → α × β)
    (items : List γ) (acc : List (α × β)) :
    items.foldl (fun m x => f x :: m) acc = (items.map f).reverse ++ acc := by
  induction items generalizing acc with
  | nil => simp
  | cons x rest ih => simp [ih, List.append_assoc]

theorem mapGet_reverse_map_of_nodup {α β γ : Type} [DecidableEq α]
    (key : γ → α) (f : γ → β) (items : List γ)
    (hnd : (items.map key).Nodup) (x : γ) (hx : x ∈ items) :
    mapGet ((items.map (fun y => (key y, f y))).reverse) (key x) = some (f x) := by
  induction items with
  | nil => cases hx
  | cons y rest ih =>
    simp only [List.map_cons, List.nodup_cons] at hnd
    rw [List.map_cons, List.reverse_cons, mapGet_append]
    rcases List.mem_cons.mp hx with h | h
    · cases h
      have hnone :
          mapGet ((rest.map (fun y => (key y, f y))).reverse) (key x) = none := by
        apply mapGet_eq_none_of_not_mem
        simpa [List.map_reverse, Function.comp] using fun hmem => hnd.1 hmem
      rw [hnone]
      simp [mapGet]
    · rw [ih hnd.2 h]

/-! ## Bounds-store lemmas -/

theorem buildLayerBoundsMap_eq (layers : List LayerObj) :
    buildLayerBoundsMap layers =
      (layers.map (fun l => (l.layerID, (⟨l⟩ : Bounds)))).reverse := by
  have h := foldl_cons_eq_reverse_map
    (fun l : LayerObj => (l.layerID, (⟨l⟩ : Bounds))) layers []
  simpa [buildLayerBoundsMap, mapSet] using h

theorem resetDocumentLayerBounds_layerBounds_get_mem
    (payload : BoundsPayload) (s : BoundsStoreState)
    (hdocs : (payload.documents.map (fun d => d.document.documentID)).Nodup)
    (docObj : DocObj) (hmem : docObj ∈ payload.documents) :
    mapGet (resetDocumentLayerBounds payload s).1.layerBounds docObj.document.documentID
      = some (buildLayerBoundsMap docObj.layers) := by
  exact foldl_mapSet_get_mem (fun d : DocObj => d.document.documentID)
    (fun d : DocObj => buildLayerBoundsMap d.layers) payload.documents
    s.layerBounds docObj hmem hdocs

theorem resetDocumentLayerBounds_layerBounds_get_not_mem
    (payload : BoundsPayload) (s : BoundsStoreState) (docID : Int)
    (h : docID ∉ payload.documents.map (fun d => d.document.documentID)) :
    mapGet (resetDocumentLayerBounds payload s).1.layerBounds docID
      = mapGet s.layerBounds docID := by
  exact foldl_mapSet_get_not_mem (fun d : DocObj => d.document.documentID)
    (fun d : DocObj => buildLayerBoundsMap d.layers) payload.documents
    s.layerBounds docID h

theorem processBoundsEvents_get_none_iff (payloads : List BoundsPayload) (docID : Int) :
    mapGet (processBoundsEvents payloads).layerBounds docID = none ↔
      docID ∉ processedDocumentIDs payloads := by
  have general : ∀ (ps : List BoundsPayload) (s : BoundsStoreState),
      mapGet ((ps.foldl (fun s p => (resetDocumentLayerBounds p s).1) s).layerBounds) docID
          = none ↔
        docID ∉ processedDocumentIDs ps ∧ mapGet s.layerBounds docID = none := by
    intro ps
    induction ps with
    | nil => simp [processedDocumentIDs]
    | cons p rest ih =>
      intro s
      rw [List.foldl_cons, ih]
      have hstep :
          mapGet ((resetDocumentLayerBounds p s).1.layerBounds) docID = none ↔
            docID ∉ p.documents.map (fun d => d.document.documentID) ∧
              mapGet s.layerBounds docID = none :=
        mapGet_foldl_mapSet_eq_none_iff (fun d : DocObj => d.document.documentID)
          (fun d : DocObj => buildLayerBoundsMap d.layers) p.documents s.layerBounds docID
      rw [hstep]
      simp only [processedDocumentIDs, List.flatMap_cons, List.mem_append, not_or,
        List.mem_flatMap]
      constructor
      · rintro ⟨h1, h2, h3⟩
        exact ⟨⟨h2, fun hm => h1 (by simpa [List.mem_flatMap] using hm)⟩, h3⟩
      · rintro ⟨⟨h2, h1⟩, h3⟩
        exact ⟨fun hm => h1 (by simpa [List.mem_flatMap] using hm), h2, h3⟩
  have base : mapGet initialBoundsStore.layerBounds docID = none := rfl
  rw [processBoundsEvents, general payloads initialBoundsStore]
  simp [base]

/-! ## Claim C3: the document-update handler -/

/-- C3: processing a `DOCUMENT_UPDATED` or `RESET_DOCUMENTS` payload
replaces each payload document's cached layer-bounds map with a map of
exactly one entry per payload layer (its `layerID` mapped to the `Bounds`
built from that layer object), leaves every other document's cached
entry unchanged, and emits exactly one `"change"` event.  Document IDs
in the payload, and layer IDs within each document, are assumed distinct,
as they are in host payloads. -/
theorem reset_document_layer_bounds_spec
    (payload : BoundsPayload) (s : BoundsStoreState)
    (hdocs : (payload.documents.map (fun d => d.document.documentID)).Nodup)
    (hlayers : ∀ docObj ∈ payload.documents,
      (docObj.layers.map (fun l => l.layerID)).Nodup) :
    (∀ docObj ∈ payload.documents,
      mapGet (resetDocumentLayerBounds payload s).1.layerBounds docObj.document.documentID
          = some ((docObj.layers.map (fun l => (l.layerID, (⟨l⟩ : Bounds)))).reverse) ∧
        ∀ l ∈ docObj.layers,
          mapGet ((docObj.layers.map (fun l => (l.layerID, (⟨l⟩ : Bounds)))).reverse)
              l.layerID = some ⟨l⟩) ∧
    (∀ docID : Int, docID ∉ payload.documents.map (fun d => d.document.documentID) →
      mapGet (resetDocumentLayerBounds payload s).1.layerBounds docID
        = mapGet s.layerBounds docID) ∧
    (resetDocumentLayerBounds payload s).2 = 1 := by
  refine ⟨fun docObj hmem => ⟨?_, fun l hl => ?_⟩,
    fun docID h => resetDocumentLayerBounds_layerBounds_get_not_mem payload s docID h,
    rfl⟩
  · rw [resetDocumentLayerBounds_layerBounds_get_mem payload s hdocs docObj hmem,
      buildLayerBoundsMap_eq]
  · exact mapGet_reverse_map_of_nodup (fun l : LayerObj => l.layerID)
      (fun l : LayerObj => (⟨l⟩ : Bounds)) docObj.layers (hlayers docObj hmem) l hl

/-- Witness for C3 at a concrete two-document payload. -/
theorem reset_document_layer_bounds_spec_witness :
    mapGet (resetDocumentLayerBounds samplePayloadB initialBoundsStore).1.layerBounds 1
        = some [(3, ⟨⟨3, .nil⟩⟩), (2, ⟨⟨2, .nil⟩⟩)] ∧
      mapGet [((3 : Int), (⟨⟨3, .nil⟩⟩ : Bounds)), (2, ⟨⟨2, .nil⟩⟩)] 2 = some ⟨⟨2, .nil⟩⟩ ∧
      mapGet (resetDocumentLayerBounds samplePayloadB initialBoundsStore).1.layerBounds 9
        = mapGet initialBoundsStore.layerBounds 9 ∧
      (resetDocumentLayerBounds samplePayloadB initialBoundsStore).2 = 1 := by
  have h := reset_document_layer_bounds_spec samplePayloadB initialBoundsStore
    (by decide) (by decide)
  refine ⟨(h.1 ⟨⟨1, .nil⟩, [⟨2, .nil⟩, ⟨3, .nil⟩]⟩ (by decide)).1,
    (h.1 ⟨⟨1, .nil⟩, [⟨2, .nil⟩, ⟨3, .nil⟩]⟩ (by decide)).2 ⟨2, .nil⟩ (by decide),
    h.2.1 9 (by decide), h.2.2⟩

/-! ## Claim C1: what the getters return after an update -/

/-- C1 counterexample: after processing a document-update event for
document 1, `getDocumentBounds(1)` returns nothing at all (JS
`undefined`), not the document's bounds — `_documentBounds` is never
written — although `getLayerBounds` does return the stored layer
bounds. -/
theorem bounds_store_document_bounds_cex :
    getDocumentBounds (resetDocumentLayerBounds samplePayloadA initialBoundsStore).1 1
        = none ∧
      getLayerBounds (resetDocumentLayerBounds samplePayloadA initialBoundsStore).1 1 2
        = .ok (some ⟨sampleLayerA⟩) :=
  ⟨rfl, rfl⟩

/-- C1 as amended: after the store processes a document-update event,
`getLayerBounds(documentID, layerID)` returns the stored bounds of each
layer that appeared in the payload, while `getDocumentBounds` is left
unchanged by the event — the handler never writes `_documentBounds`, so
for a store that has only seen such events it returns no value. -/
theorem bounds_store_tracks_layer_bounds_only
    (payload : BoundsPayload) (s : BoundsStoreState)
    (hdocs : (payload.documents.map (fun d => d.document.documentID)).Nodup)
    (hlayers : ∀ docObj ∈ payload.documents,
      (docObj.layers.map (fun l => l.layerID)).Nodup) :
    (∀ docObj ∈ payload.documents, ∀ l ∈ docObj.layers,
      getLayerBounds (resetDocumentLayerBounds payload s).1
          docObj.document.documentID l.layerID = .ok (some ⟨l⟩)) ∧
    (∀ docID : Int,
      getDocumentBounds (resetDocumentLayerBounds payload s).1 docID
        = getDocumentBounds s docID) := by
  constructor
  · intro docObj hmem l hl
    have hget := resetDocumentLayerBounds_layerBounds_get_mem payload s hdocs docObj hmem
    rw [buildLayerBoundsMap_eq] at hget
    rw [getLayerBounds, hget]
    exact congrArg Except.ok (mapGet_reverse_map_of_nodup (fun l : LayerObj => l.layerID)
      (fun l : LayerObj => (⟨l⟩ : Bounds)) docObj.layers (hlayers docObj hmem) l hl)
  · intro docID
    rfl

/-- Witness for the amended C1 at a concrete payload. -/
theorem bounds_store_tracks_layer_bounds_only_witness :
    getLayerBounds (resetDocumentLayerBounds samplePayloadA initialBoundsStore).1 1 2
        = .ok (some ⟨sampleLayerA⟩) ∧
      getDocumentBounds (resetDocumentLayerBounds samplePayloadA initialBoundsStore).1 1
        = none := by
  have h := bounds_store_tracks_layer_bounds_only samplePayloadA initialBoundsStore
    (by decide) (by decide)
  exact ⟨h.1 ⟨⟨1, .nil⟩, [sampleLayerA]⟩ (by decide) sampleLayerA (by decide),
    (h.2 1).trans rfl⟩

/-! ## Claim C8: the precondition of getLayerBounds -/

/-- C8: `getLayerBounds(documentID, layerID)` succeeds exactly when the
`documentID` appeared in some previously processed `DOCUMENT_UPDATED` or
`RESET_DOCUMENTS` payload — under that precondition the error branch is
unreachable and the nested lookup's value is returned — while for a
never-processed `documentID` the lookup dereferences an absent map and
fails. -/
theorem get_layer_bounds_requires_processed_document
    (payloads : List BoundsPayload) (docID layerID : Int) :
    ((∃ v, getLayerBounds (processBoundsEvents payloads) docID layerID = .ok v) ↔
      docID ∈ processedDocumentIDs payloads) ∧
    (docID ∉ processedDocumentIDs payloads →
      getLayerBounds (processBoundsEvents payloads) docID layerID
        = .error "TypeError: undefined has no properties") := by
  have hiff := processBoundsEvents_get_none_iff payloads docID
  constructor
  · constructor
    · rintro ⟨v, hv⟩
      by_contra hmem
      rw [getLayerBounds, hiff.mpr hmem] at hv
      cases hv
    · intro hmem
      rw [getLayerBounds]
      rcases hcase : mapGet (processBoundsEvents payloads).layerBounds docID with _ | m
      · exact absurd (hiff.mp hcase) (fun h => h hmem)
      · exact ⟨mapGet m layerID, rfl⟩
  · intro hmem
    rw [getLayerBounds, hiff.mpr hmem]

/-- Witness for C8: document 6 was processed and its lookup succeeds;
document 8 never was and the lookup fails. -/
theorem get_layer_bounds_requires_processed_document_witness :
    (∃ v, getLayerBounds (processBoundsEvents [samplePayloadC]) 6 7 = .ok v) ∧
      getLayerBounds (processBoundsEvents [samplePayloadC]) 8 7
        = .error "TypeError: undefined has no properties" :=
  ⟨(get_layer_bounds_requires_processed_document [samplePayloadC] 6 7).1.mpr (by decide),
    (get_layer_bounds_requires_processed_document [samplePayloadC] 8 7).2 (by decide)⟩

/-! ## Claim C10: carousel navigation stays in range -/

/-- C10: for a non-empty items list of length `n` and a current index in
`[0, n)`, `_nextItem` and `_prevItem` keep the index in range whether
`wrapNavigation` wraps (modulo `n`) or clamps at the ends, `_gotoItem`
with an in-range argument sets an in-range index, and the initial index
`0` is in range. -/
theorem carousel_navigation_preserves_index_range
    (wrap : Bool) (index n : Int) (h0 : 0 ≤ index) (hn : index < n) :
    (0 ≤ nextItemIndex wrap index n ∧ nextItemIndex wrap index n < n) ∧
    (0 ≤ prevItemIndex wrap index n ∧ prevItemIndex wrap index n < n) ∧
    (∀ j : Int, 0 ≤ j → j < n → 0 ≤ gotoItemIndex j ∧ gotoItemIndex j < n) ∧
    (1 ≤ n → 0 ≤ initialCarouselIndex ∧ initialCarouselIndex < n) := by
  have hpos : 0 < n := lt_of_le_of_lt h0 hn
  refine ⟨?_, ?_, ?_, ?_⟩
  · rw [nextItemIndex]
    split_ifs
    · exact ⟨Int.emod_nonneg _ (ne_of_gt hpos), Int.emod_lt_of_pos _ hpos⟩
    · omega
  · rw [prevItemIndex]
    split_ifs <;> omega
  · intro j hj0 hjn
    exact ⟨hj0, hjn⟩
  · intro h1
    constructor <;> simp only [initialCarouselIndex] <;> omega

/-- Witness for C10 with three items, wrapping navigation, index 0. -/
theorem carousel_navigation_preserves_index_range_witness :
    (0 ≤ nextItemIndex true 0 3 ∧ nextItemIndex true 0 3 < 3) ∧
      (0 ≤ prevItemIndex true 0 3 ∧ prevItemIndex true 0 3 < 3) ∧
      (0 ≤ gotoItemIndex 2 ∧ gotoItemIndex 2 < 3) ∧
      (0 ≤ initialCarouselIndex ∧ initialCarouselIndex < 3) := by
  have h := carousel_navigation_preserves_index_range true 0 3 (by decide) (by decide)
  exact ⟨h.1, h.2.1, h.2.2.1 2 (by decide) (by decide), h.2.2.2 (by decide)⟩

/-! ## Claim C7: the responsive font-size cascade -/

/-- The cascade at pixel ratio 1, written as a width case split. -/
theorem htmlFontSize_ratio_one (w : Nat) :
    htmlFontSize 1 w =
      if w < 801 then 625 else if w ≤ 1440 then 500 else 625 := by
  simp only [htmlFontSize, mediaRules, List.foldl, ruleMatches]
  norm_num
  split_ifs <;> omega

/-- The cascade at pixel ratio 2, written as a width case split. -/
theorem htmlFontSize_ratio_two (w : Nat) :
    htmlFontSize 2 w =
      if w < 801 then 625
      else if w ≤ 1440 then 500
      else if w ≤ 1680 then 563
      else if w ≤ 2560 then 625
      else 688 := by
  simp only [htmlFontSize, mediaRules, List.foldl, ruleMatches]
  norm_num
  split_ifs <;> omega

/-- C7: for pixel ratios 1 and 2 the selected root font-size percentage
is non-decreasing in device width from 801px up, and the result depends
on display density: between 1441px and 1680px ratio 1 selects 62.5%
while ratio 2 selects 56.3% (sizes in tenths of a percent). -/
theorem responsive_font_size_monotone_and_density_dependent :
    (∀ ratio : Nat, ratio = 1 ∨ ratio = 2 → ∀ w1 w2 : Nat, 801 ≤ w1 → w1 ≤ w2 →
      htmlFontSize ratio w1 ≤ htmlFontSize ratio w2) ∧
    (∀ w : Nat, 1441 ≤ w → w ≤ 1680 →
      htmlFontSize 1 w = 625 ∧ htmlFontSize 2 w = 563) := by
  constructor
  · rintro ratio (rfl | rfl) w1 w2 h801 hle
    · rw [htmlFontSize_ratio_one, htmlFontSize_ratio_one]
      split_ifs <;> omega
    · rw [htmlFontSize_ratio_two, htmlFontSize_ratio_two]
      split_ifs <;> omega
  · intro w h1 h2
    rw [htmlFontSize_ratio_one, htmlFontSize_ratio_two]
    constructor <;> [skip; skip] <;> split_ifs <;> omega

/-- Witness for C7 at ratio 2, widths 1500 and 2000. -/
theorem responsive_font_size_witness :
    htmlFontSize 2 1500 ≤ htmlFontSize 2 2000 ∧
      htmlFontSize 1 1500 = 625 ∧ htmlFontSize 2 1500 = 563 :=
  ⟨(responsive_font_size_monotone_and_density_dependent).1 2 (Or.inr rfl) 1500 2000
      (by decide) (by decide),
    (responsive_font_size_monotone_and_density_dependent).2 1500 (by decide) (by decide)⟩

/-! ## Claim C4: menu action processing -/

theorem process_menu_actions_eq_collect (raw : RawVal) :
    ∀ (am : List (String × MenuAction)) (em : List (String × List String))
      (pfx : Option String),
      processMenuActions raw am em pfx =
        ((collectMenuActionEntries pfx raw).reverse ++ am,
          (collectMenuEnablerEntries pfx raw).reverse ++ em) := by
  induction raw with
  | str s =>
    intro am em pfx
    simp [processMenuActions, collectMenuActionEntries, collectMenuEnablerEntries]
  | nil =>
    intro am em pfx
    simp [processMenuActions, collectMenuActionEntries, collectMenuEnablerEntries]
  | cons prop descriptor rest ihd ihr =>
    intro am em pfx
    simp only [processMenuActions, collectMenuActionEntries, collectMenuEnablerEntries]
    cases hact : descriptor.getProp "$action" with
    | some act =>
      simp only [ihr, mapSet, List.reverse_cons, List.singleton_append,
        List.reverse_append, List.append_assoc, List.reverse_nil, List.nil_append,
        List.cons_append]
    | none =>
      by_cases hprop : prop = "$enable-rule"
      · simp only [if_pos hprop, ihr, mapSet, List.reverse_cons, List.nil_append,
          List.append_assoc, List.singleton_append, List.cons_append]
      · simp only [if_neg hprop, ihd, ihr, mapSet, List.reverse_cons,
          List.reverse_append, List.append_assoc, List.singleton_append,
          List.cons_append, List.nil_append]

theorem mapGet_reverse_entry_of_nodup {α β : Type} [DecidableEq α]
    (entries : List (α × β)) (hnd : (entries.map Prod.fst).Nodup)
    (e : α × β) (he : e ∈ entries) :
    mapGet entries.reverse e.1 = some e.2 := by
  have hmap : entries.map (fun y => (y.1, y.2)) = entries := by
    simp
  have h := mapGet_reverse_map_of_nodup (Prod.fst : α × β → α) (Prod.snd : α × β → β)
    entries hnd e he
  rwa [hmap] at h

/-- C4: the `MenuBar` built by `fromJSONObjects` maps each menu item to
its behavior by dot-delimited path: the actions map consists exactly of
an entry per node whose descriptor has `"$action"`, keyed by the
dot-joined property path and carrying that `$action` (plus the `$payload`
when present), and the enablers map of an entry per visited node holding
the comma-split of its `"$enable-rule"` string (empty when absent), with
nodes without `"$action"` recursed into except the `"$enable-rule"`
property itself; when the resulting paths are distinct, looking up any
such path returns exactly that entry. -/
theorem menu_bar_from_json_maps_actions_by_path
    (menuID : String) (menuActionsObj : RawVal) :
    ((fromJSONObjectsMaps menuID menuActionsObj).actions
        = (collectMenuActionEntries none menuActionsObj).reverse ∧
      (fromJSONObjectsMaps menuID menuActionsObj).enablers
        = (collectMenuEnablerEntries none menuActionsObj).reverse) ∧
    (((collectMenuActionEntries none menuActionsObj).map Prod.fst).Nodup →
      ∀ e ∈ collectMenuActionEntries none menuActionsObj,
        mapGet (fromJSONObjectsMaps menuID menuActionsObj).actions e.1 = some e.2) ∧
    (((collectMenuEnablerEntries none menuActionsObj).map Prod.fst).Nodup →
      ∀ e ∈ collectMenuEnablerEntries none menuActionsObj,
        mapGet (fromJSONObjectsMaps menuID menuActionsObj).enablers e.1 = some e.2) := by
  have h := process_menu_actions_eq_collect menuActionsObj [] [] none
  have ha : (fromJSONObjectsMaps menuID menuActionsObj).actions
      = (collectMenuActionEntries none menuActionsObj).reverse := by
    simp [fromJSONObjectsMaps, h]
  have he : (fromJSONObjectsMaps menuID menuActionsObj).enablers
      = (collectMenuEnablerEntries none menuActionsObj).reverse := by
    simp [fromJSONObjectsMaps, h]
  refine ⟨⟨ha, he⟩, fun hnd e hmem => ?_, fun hnd e hmem => ?_⟩
  · rw [ha]
    exact mapGet_reverse_entry_of_nodup _ hnd e hmem
  · rw [he]
    exact mapGet_reverse_entry_of_nodup _ hnd e hmem

/-- Witness for C4 on a small two-root menu-actions object. -/
theorem menu_bar_from_json_maps_actions_by_path_witness :
    mapGet (fromJSONObjectsMaps "M" sampleMenuActionsObj).actions "FILE.OPEN"
        = some ⟨.str "documents.open", none⟩ ∧
      mapGet (fromJSONObjectsMaps "M" sampleMenuActionsObj).actions "EDIT"
        = some ⟨.str "edit.cut", some (.raw (.str "x"))⟩ ∧
      mapGet (fromJSONObjectsMaps "M" sampleMenuActionsObj).enablers "FILE"
        = some ["always", "have-document"] ∧
      mapGet (fromJSONObjectsMaps "M" sampleMenuActionsObj).enablers "FILE.OPEN"
        = some ["always"] := by
  have h := menu_bar_from_json_maps_actions_by_path "M" sampleMenuActionsObj
  exact ⟨h.2.1 (by decide) ("FILE.OPEN", ⟨.str "documents.open", none⟩) (by decide),
    h.2.1 (by decide) ("EDIT", ⟨.str "edit.cut", some (.raw (.str "x"))⟩) (by decide),
    h.2.2 (by decide) ("FILE", ["always", "have-document"]) (by decide),
    h.2.2 (by decide) ("FILE.OPEN", ["always"]) (by decide)⟩

/-! ## Claim C6: the open-documents menu

The menu IDs are `"WINDOW.OPEN_DOCUMENT." + index`; distinctness of
those strings for distinct indices reduces to injectivity of `Nat.repr`,
proved here through the direct digit expansion `decDigits`. -/

theorem decDigits_eq (n : Nat) :
    decDigits n =
      if n < 10 then [Nat.digitChar n]
      else decDigits (n / 10) ++ [Nat.digitChar (n % 10)] := by
  rw [decDigits]

theorem toDigitsCore_eq_decDigits (f : Nat) :
    ∀ (n : Nat) (ds : List Char), n < f →
      Nat.toDigitsCore 10 f n ds = decDigits n ++ ds := by
  induction f with
  | zero =>
    intro n ds h
    exact absurd h (Nat.not_lt_zero n)
  | succ f ih =>
    intro n ds h
    simp only [Nat.toDigitsCore]
    by_cases h0 : n / 10 = 0
    · rw [if_pos h0, decDigits_eq n, if_pos (by omega : n < 10)]
      have hmod : n % 10 = n := by omega
      simp [hmod]
    · rw [if_neg h0, ih (n / 10) _ (by omega), decDigits_eq n,
        if_neg (by omega : ¬n < 10)]
      simp [List.append_assoc]

theorem decDigits_ne_nil (n : Nat) : decDigits n ≠ [] := by
  rw [decDigits_eq n]
  split_ifs <;> simp

theorem digitChar_inj_lt :
    ∀ m, m < 10 → ∀ n, n < 10 → Nat.digitChar m = Nat.digitChar n → m = n := by
  decide

theorem decDigits_inj : ∀ m n : Nat, decDigits m = decDigits n → m = n := by
  intro m
  induction m using Nat.strong_induction_on with
  | _ m ih =>
    intro n h
    by_cases hm : m < 10 <;> by_cases hn : n < 10
    · rw [decDigits_eq m, if_pos hm, decDigits_eq n, if_pos hn] at h
      simp only [List.cons.injEq, and_true] at h
      exact digitChar_inj_lt m hm n hn h
    · rw [decDigits_eq m, if_pos hm, decDigits_eq n, if_neg hn] at h
      have hlen := congrArg List.length h
      simp only [List.length_cons, List.length_nil, List.length_append] at hlen
      exact absurd (List.length_eq_zero.mp (by omega)) (decDigits_ne_nil (n / 10))
    · rw [decDigits_eq m, if_neg hm, decDigits_eq n, if_pos hn] at h
      have hlen := congrArg List.length h
      simp only [List.length_cons, List.length_nil, List.length_append] at hlen
      exact absurd (List.length_eq_zero.mp (by omega)) (decDigits_ne_nil (m / 10))
    · rw [decDigits_eq m, if_neg hm, decDigits_eq n, if_neg hn] at h
      obtain ⟨h1, h2⟩ := List.append_inj' h rfl
      have hdiv : m / 10 = n / 10 := ih (m / 10) (by omega) (n / 10) h1
      simp only [List.cons.injEq, and_true] at h2
      have hmod : m % 10 = n % 10 :=
        digitChar_inj_lt (m % 10) (by omega) (n % 10) (by omega) h2
      omega

theorem nat_repr_inj (m n : Nat) (h : Nat.repr m = Nat.repr n) : m = n := by
  have expand : ∀ k : Nat, Nat.repr k = (decDigits k).asString := by
    intro k
    show (Nat.toDigits 10 k).asString = (decDigits k).asString
    rw [Nat.toDigits, toDigitsCore_eq_decDigits (k + 1) k [] (Nat.lt_succ_self k),
      List.append_nil]
  rw [expand m, expand n] at h
  exact decDigits_inj m n (congrArg String.data h)

theorem openDocumentMenuID_inj (i j : Nat)
    (h : openDocumentMenuID i = openDocumentMenuID j) : i = j := by
  apply nat_repr_inj
  apply String.ext
  have hd := congrArg String.data h
  simp only [openDocumentMenuID, String.data_append] at hd
  exact List.append_cancel_left hd

theorem buildOpenDocumentItems_length (docs : List Document)
    (currentDocument : Document) (isMac : Bool) :
    ∀ (index : Nat) (actions : List (String × MenuAction)),
      (buildOpenDocumentItems docs currentDocument isMac index actions).1.length
        = docs.length := by
  induction docs with
  | nil => intro index actions; rfl
  | cons d rest ih =>
    intro index actions
    simp only [buildOpenDocumentItems, List.length_cons, ih]

theorem buildOpenDocumentItems_getElem (docs : List Document)
    (currentDocument : Document) (isMac : Bool) :
    ∀ (index : Nat) (actions : List (String × MenuAction)) (i : Nat),
      (buildOpenDocumentItems docs currentDocument isMac index actions).1[i]?
        = docs[i]?.map (fun d => openDocumentItem (index + i) d currentDocument isMac) := by
  induction docs with
  | nil => intro index actions i; simp [buildOpenDocumentItems]
  | cons d rest ih =>
    intro index actions i
    cases i with
    | zero => simp [buildOpenDocumentItems]
    | succ i =>
      simp only [buildOpenDocumentItems, List.getElem?_cons_succ, ih]
      have harith : index + 1 + i = index + (i + 1) := by omega
      rw [harith]

theorem buildOpenDocumentItems_actions_fresh (docs : List Document)
    (currentDocument : Document) (isMac : Bool) :
    ∀ (index : Nat) (actions : List (String × MenuAction)) (k : String),
      (∀ j : Nat, index ≤ j → k ≠ openDocumentMenuID j) →
      mapGet (buildOpenDocumentItems docs currentDocument isMac index actions).2 k
        = mapGet actions k := by
  induction docs with
  | nil => intro index actions k _; rfl
  | cons d rest ih =>
    intro index actions k hk
    simp only [buildOpenDocumentItems]
    rw [ih (index + 1) _ k (fun j hj => hk j (by omega)),
      mapGet_set_ne _ _ _ _ (fun hh => hk index (le_refl index) hh.symm)]

theorem buildOpenDocumentItems_actions_get (docs : List Document)
    (currentDocument : Document) (isMac : Bool) :
    ∀ (index : Nat) (actions : List (String × MenuAction)) (i : Nat) (d : Document),
      docs[i]? = some d →
      mapGet (buildOpenDocumentItems docs currentDocument isMac index actions).2
          (openDocumentMenuID (index + i))
        = some (selectDocumentAction d) := by
  induction docs with
  | nil => intro index actions i d h; simp at h
  | cons d0 rest ih =>
    intro index actions i d h
    cases i with
    | zero =>
      simp only [List.getElem?_cons_zero, Option.some.injEq] at h
      cases h
      simp only [buildOpenDocumentItems, Nat.add_zero]
      rw [buildOpenDocumentItems_actions_fresh rest currentDocument isMac (index + 1) _ _
        (fun j hj hh => by
          have := openDocumentMenuID_inj index j hh
          omega),
        mapGet_set_self]
    | succ i =>
      simp only [List.getElem?_cons_succ] at h
      simp only [buildOpenDocumentItems]
      have harith : index + (i + 1) = (index + 1) + i := by omega
      rw [harith]
      exact ih (index + 1) _ i d h

/-- C6: `updateOpenDocuments` builds one `WINDOW.OPEN_DOCUMENT.<i>` item
per open document in enumeration order; only the first nine documents
get a shortcut whose `keyChar` is the string `(index + 1)` with
command+option modifiers, later ones get `null`; an item is checked
(value 1) exactly when its document equals the current document; and the
actions map gains, for every index, an entry mapping
`WINDOW.OPEN_DOCUMENT.<i>` to the `documents.selectDocument` action with
that document as payload. -/
theorem update_open_documents_spec
    (menubar : MenuBarMaps) (docs : List Document) (currentDocument : Document)
    (isMac : Bool) :
    (updateOpenDocumentsMaps menubar docs currentDocument isMac).1.length
        = docs.length ∧
    (∀ (i : Nat) (d : Document), docs[i]? = some d →
      ∃ item,
        (updateOpenDocumentsMaps menubar docs currentDocument isMac).1[i]?
            = some item ∧
          item.id = openDocumentMenuID i ∧
          item.label = d.name ∧
          item.shortcut =
            (if i < 9 then some ⟨Nat.repr (i + 1), modifiersToBits true true⟩
             else none) ∧
          (item.checked = 1 ↔ d = currentDocument)) ∧
    (∀ (i : Nat) (d : Document), docs[i]? = some d →
      mapGet (updateOpenDocumentsMaps menubar docs currentDocument isMac).2.actions
          (openDocumentMenuID i)
        = some (selectDocumentAction d)) := by
  refine ⟨buildOpenDocumentItems_length docs currentDocument isMac 0 menubar.actions,
    fun i d hd => ?_, fun i d hd => ?_⟩
  · refine ⟨openDocumentItem i d currentDocument isMac, ?_, rfl, rfl, ?_, ?_⟩
    · show (buildOpenDocumentItems docs currentDocument isMac 0 menubar.actions).1[i]?
        = some (openDocumentItem i d currentDocument isMac)
      rw [buildOpenDocumentItems_getElem docs currentDocument isMac 0 menubar.actions i,
        hd, Option.map_some']
      rw [Nat.zero_add]
    · cases isMac <;>
        simp [openDocumentItem, switchDocModifiersMac, switchDocModifiersWin,
          modifiersToBits]
    · by_cases hdc : d = currentDocument <;> simp [openDocumentItem, hdc]
  · show mapGet (buildOpenDocumentItems docs currentDocument isMac 0 menubar.actions).2
        (openDocumentMenuID i) = some (selectDocumentAction d)
    have h := buildOpenDocumentItems_actions_get docs currentDocument isMac 0
      menubar.actions i d hd
    rwa [Nat.zero_add] at h

/-- Witness for C6 with two open documents, the first one current. -/
theorem update_open_documents_spec_witness :
    (updateOpenDocumentsMaps ⟨"application-menu", [], []⟩ openDocsSample
        flatDocument true).1.length = 2 ∧
      (∃ item,
        (updateOpenDocumentsMaps ⟨"application-menu", [], []⟩ openDocsSample
            flatDocument true).1[0]? = some item ∧
          item.id = openDocumentMenuID 0 ∧
          item.label = flatDocument.name ∧
          item.shortcut =
            (if 0 < 9 then some ⟨Nat.repr 1, modifiersToBits true true⟩ else none) ∧
          (item.checked = 1 ↔ flatDocument = flatDocument)) ∧
      mapGet (updateOpenDocumentsMaps ⟨"application-menu", [], []⟩ openDocsSample
          flatDocument true).2.actions (openDocumentMenuID 1)
        = some (selectDocumentAction busyDocument) := by
  have h := update_open_documents_spec ⟨"application-menu", [], []⟩ openDocsSample
    flatDocument true
  exact ⟨h.1, h.2.1 0 flatDocument rfl, h.2.2 1 busyDocument rfl⟩

/-! ## Claim C5: renameLayer -/

/-- C5: `renameLayer` dispatches a `RENAME_LAYER` event whose payload is
exactly `{documentID: document.id, layerID: layer.id, name: newName}`,
and issues exactly one host `playObject` call carrying a rename
descriptor built from references to the same document ID and layer ID
and the same new name. -/
theorem rename_layer_dispatch_and_play
    (document : Document) (layer : Layer) (newName : String) :
    renameLayerCommand document layer newName =
      { dispatches := [DispatchEvent.renameLayer document.id layer.id newName]
        plays := [PlayObject.rename
          [Ref.documentById document.id, Ref.layerById layer.id] newName]
        transfers := [] } :=
  rfl

/-! ## Claim C9: setLocking on a background layer -/

/-- C9: for a layer whose `isBackground` flag is set, `setLocking` issues
the unlock-background host call followed by a full document update — for
either value of `locked` — and never issues a set-locking host call, so
asking to lock a background layer actually unlocks it. -/
theorem set_locking_background_unlocks
    (document : Document) (layer : Layer) (locked : Bool)
    (hbg : layer.isBackground = true) :
    (setLockingCommand document layer locked).plays
        = [PlayObject.unlockBackground layer.id] ∧
      (setLockingCommand document layer locked).transfers
        = [Transfer.updateDocument document.id] ∧
      ∀ (refs : List Ref) (lk : Bool),
        PlayObject.setLocking refs lk ∉ (setLockingCommand document layer locked).plays := by
  refine ⟨?_, ?_, ?_⟩ <;> simp [setLockingCommand, unlockBackgroundLayer, hbg]

/-- Witness for C9 on a concrete background layer with `locked = true`. -/
theorem set_locking_background_unlocks_witness :
    (setLockingCommand backgroundDocument backgroundLayer true).plays
        = [PlayObject.unlockBackground 7] ∧
      (setLockingCommand backgroundDocument backgroundLayer true).transfers
        = [Transfer.updateDocument 3] ∧
      PlayObject.setLocking [] true
        ∉ (setLockingCommand backgroundDocument backgroundLayer true).plays := by
  have h := set_locking_background_unlocks backgroundDocument backgroundLayer true rfl
  exact ⟨h.1, h.2.1, h.2.2 [] true⟩

/-! ## Claim C2: one-shot commands marshal host calls and dispatches -/

/-- C2 counterexample: invoking `deselectAll` on a document with an empty
layer list resolves without issuing any host call or dispatching any
state update, so not every invocation marshals a host call. -/
theorem layer_commands_cex :
    (deselectAllLayersCommand (some flatDocument) none).plays = [] ∧
      (deselectAllLayersCommand (some flatDocument) none).dispatches = [] :=
  ⟨rfl, rfl⟩

/-- C2 as amended: every invocation of `deselectAll`, `selectAll`,
`deleteSelected` or `groupSelected` whose guard passes — a document is
resolved and its layer list is non-empty, plus a deletable selection for
`deleteSelected` and a non-empty selection for `groupSelected` —
marshals its parameters into at least one host `playObject` call
(directly or through the inlined `selectLayer` transfer) and dispatches
at least one state update to the stores. -/
theorem layer_commands_guarded_marshal :
    (∀ (document? currentDocument : Option Document) (d : Document),
      resolvedDocument document? currentDocument = some d →
      d.layers.all.isEmpty = false →
      (deselectAllLayersCommand document? currentDocument).plays ≠ [] ∧
        (deselectAllLayersCommand document? currentDocument).dispatches ≠ []) ∧
    (∀ (document? currentDocument : Option Document) (d : Document),
      resolvedDocument document? currentDocument = some d →
      d.layers.all.isEmpty = false →
      (selectAllLayersCommand document? currentDocument).plays ≠ [] ∧
        (selectAllLayersCommand document? currentDocument).dispatches ≠ []) ∧
    (∀ (document? currentDocument : Option Document) (d : Document),
      resolvedDocument document? currentDocument = some d →
      d.layers.all.isEmpty = false →
      d.layers.selectedLayersDeletable = true →
      (deleteSelectedLayersCommand document? currentDocument).plays ≠ [] ∧
        (deleteSelectedLayersCommand document? currentDocument).dispatches ≠ []) ∧
    (∀ (d : Document) (groupResult : GroupResult),
      d.layers.selected.length ≠ 0 →
      (groupSelectedLayersCommand d groupResult).plays ≠ [] ∧
        (groupSelectedLayersCommand d groupResult).dispatches ≠ []) := by
  refine ⟨fun document? currentDocument d hres hempty => ?_,
    fun document? currentDocument d hres hempty => ?_,
    fun document? currentDocument d hres hempty hdel => ?_,
    fun d groupResult hsel => ?_⟩
  · simp [deselectAllLayersCommand, hres, hempty]
  · simp [selectAllLayersCommand, hres, hempty, selectLayerCommand]
  · simp [deleteSelectedLayersCommand, hres, hempty, hdel, playWithLockOverride]
  · simp [groupSelectedLayersCommand, hsel]

/-- Witness for the amended C2: a document with one selected layer makes
all four commands issue a play and a dispatch. -/
theorem layer_commands_guarded_marshal_witness :
    ((deselectAllLayersCommand (some busyDocument) none).plays ≠ [] ∧
      (deselectAllLayersCommand (some busyDocument) none).dispatches ≠ []) ∧
    ((selectAllLayersCommand (some busyDocument) none).plays ≠ [] ∧
      (selectAllLayersCommand (some busyDocument) none).dispatches ≠ []) ∧
    ((deleteSelectedLayersCommand (some busyDocument) none).plays ≠ [] ∧
      (deleteSelectedLayersCommand (some busyDocument) none).dispatches ≠ []) ∧
    ((groupSelectedLayersCommand busyDocument ⟨20, 21, "Group 1"⟩).plays ≠ [] ∧
      (groupSelectedLayersCommand busyDocument ⟨20, 21, "Group 1"⟩).dispatches ≠ []) := by
  have h := layer_commands_guarded_marshal
  exact ⟨h.1 (some busyDocument) none busyDocument rfl rfl,
    h.2.1 (some busyDocument) none busyDocument rfl rfl,
    h.2.2.1 (some busyDocument) none busyDocument rfl rfl rfl,
    h.2.2.2 busyDocument ⟨20, 21, "Group 1"⟩ (by decide)⟩
